import Mathlib

/-
  Verification of the OSM ingestion-and-assembly core (osmnx/core.py).

  The embedding models Python dictionaries as insertion-ordered association
  lists (`Dict`), with a `Val` type covering the value shapes that occur in
  the element / node / path / edge attribute dictionaries of the source.
  A failed dictionary subscript (Python KeyError / TypeError) is modelled by
  the distinguished value `Val.missing` (respectively a default value), which
  never arises on the well-formed inputs the theorems quantify over.
-/

namespace Osmnx

/-- Values stored in a Python-style attribute dictionary of the source:
strings, integers, numbers (float64 modelled as rationals), booleans,
lists of integer node references and string-to-string tag dictionaries. -/
inductive Val where
  | str : String → Val
  | int : Int → Val
  | rat : Rat → Val
  | bool : Bool → Val
  | intList : List Int → Val
  | strDict : List (String × String) → Val
  | missing : Val
deriving DecidableEq, Repr

/-- An insertion-ordered dictionary, as Python dicts are. -/
abbrev Dict (κ : Type) (α : Type) := List (κ × α)

/-- Dictionary lookup: `m[q]` as an `Option`. -/
def dget? {κ α : Type} [DecidableEq κ] : Dict κ α → κ → Option α
  | [], _ => none
  | (k, v) :: rest, q => if k = q then some v else dget? rest q

/-- Dictionary insertion `m[q] = w`: overwrite in place when the key is
present (Python dicts keep the original position), append otherwise. -/
def dinsert {κ α : Type} [DecidableEq κ] : Dict κ α → κ → α → Dict κ α
  | [], q, w => [(q, w)]
  | (k, v) :: rest, q, w => if k = q then (q, w) :: rest else (k, v) :: dinsert rest q w

/-- Dictionary deletion `del m[q]`. -/
def ddel {κ α : Type} [DecidableEq κ] (m : Dict κ α) (q : κ) : Dict κ α :=
  m.filter (fun p => decide (p.1 ≠ q))

/-- Membership test `q in m`. -/
def dmem {κ α : Type} [DecidableEq κ] (m : Dict κ α) (q : κ) : Bool :=
  (dget? m q).isSome

/-- Attribute dictionary of one OSM element / graph node / graph edge. -/
abbrev Attrs := Dict String Val

/-- A string-to-string tag dictionary (the value of a `tags` key). -/
abbrev Tags := Dict String String

/-- Total lookup into an attribute dictionary; a missing key yields
`Val.missing` (the model of a Python KeyError). -/
def dget (m : Attrs) (q : String) : Val :=
  (dget? m q).getD .missing

/-- The value of `element['tags']` viewed as a tag dictionary (empty when absent). -/
def tagsOf (element : Attrs) : Tags :=
  match dget? element "tags" with
  | some (.strDict t) => t
  | _ => []

/-- Coerce a value to an integer node-reference list (used for
`element['nodes']` / `data['nodes']`, always an integer list in the source). -/
def intListOf : Val → List Int
  | .intList l => l
  | _ => []

/-- The value of `element['nodes']` as a list of integer node references. -/
def nodesOf (element : Attrs) : List Int :=
  intListOf (dget element "nodes")

/-- The caller-supplied settings the core reads: the two tag allow-lists,
the two policy booleans and the graph-metadata strings (the timestamp
`utils.ts()` and the tool version are produced outside the core and are
threaded in here as plain data). -/
structure Settings where
  useful_tags_node : List String
  useful_tags_path : List String
  all_oneway : Bool
  default_crs : String
  created_date : String
  version : String

/-- The tag-copy loop shared by `_convert_node` and `_convert_path`:
`for useful_tag in allow: if useful_tag in tags: dst[useful_tag] = tags[useful_tag]`. -/
def copyUsefulTags (allow : List String) (tags : Tags) (dst : Attrs) : Attrs :=
  allow.foldl
    (fun acc t =>
      match dget? tags t with
      | some v => dinsert acc t (.str v)
      | none => acc)
    dst

/-- Model of `_convert_node` of the source: build `{y, x, osmid}` from a node
element and copy the allow-listed tags. -/
def _convert_node (s : Settings) (element : Attrs) : Attrs :=
  let node : Attrs := []
  let node := dinsert node "y" (dget element "lat")
  let node := dinsert node "x" (dget element "lon")
  let node := dinsert node "osmid" (dget element "id")
  if dmem element "tags" then copyUsefulTags s.useful_tags_node (tagsOf element) node
  else node

/-- Tail worker for the consecutive-duplicate collapse: keeps an element
exactly when it differs from the previous one. -/
def collapseFrom (prev : Int) : List Int → List Int
  | [] => []
  | x :: xs => if x = prev then collapseFrom prev xs else x :: collapseFrom x xs

/-- Model of `[group[0] for group in groupby(element['nodes'])]` of the source: the
sequence of keys of the maximal runs of equal adjacent elements, that is,
the list with consecutive duplicates removed. -/
def groupbyHeads : List Int → List Int
  | [] => []
  | x :: xs => x :: collapseFrom x xs

/-- Model of `_convert_path` of the source: build `{osmid, nodes}` from a way
element, collapsing consecutive duplicate node references, and copy the
allow-listed tags. -/
def _convert_path (s : Settings) (element : Attrs) : Attrs :=
  let path : Attrs := []
  let path := dinsert path "osmid" (dget element "id")
  let path := dinsert path "nodes" (.intList (groupbyHeads (nodesOf element)))
  if dmem element "tags" then copyUsefulTags s.useful_tags_path (tagsOf element) path
  else path

/-- One Overpass-like response: `{"elements": [...]}`. -/
structure Batch where
  elements : List Attrs
deriving DecidableEq, Repr

/-- The loop body of `_parse_osm_nodes_paths`: dispatch one element on its
`type` tag into the node map or the path map (any other type is skipped). -/
def classifyStep (s : Settings) (acc : Dict Val Attrs × Dict Val Attrs)
    (element : Attrs) : Dict Val Attrs × Dict Val Attrs :=
  if dget element "type" = .str "node" then
    (dinsert acc.1 (dget element "id") (_convert_node s element), acc.2)
  else if dget element "type" = .str "way" then
    (acc.1, dinsert acc.2 (dget element "id") (_convert_path s element))
  else acc

/-- Model of `_parse_osm_nodes_paths` of the source: split the element list into a
node map and a path map, both keyed by `element['id']`. -/
def _parse_osm_nodes_paths (s : Settings) (osm_data : Batch) :
    Dict Val Attrs × Dict Val Attrs :=
  osm_data.elements.foldl (classifyStep s) ([], [])

/-- The assembled directed multigraph: graph-level metadata, the node
dictionary keyed by `element['id']`, and the edge list in insertion order
(networkx `add_edges_from` appends; the per-(u,v) parallel key of the
source is the position in this list). -/
structure Graph where
  meta : Attrs
  nodes : Dict Val Attrs
  edges : List (Int × Int × Attrs)
deriving DecidableEq, Repr

/-- Model of `_add_path` of the source: pop `data['nodes']`, set `data['oneway']`
to the passed-in boolean unless the `all_oneway` setting is on, add one
directed edge per consecutive node pair, and when the path is not one-way
add the pair-reversed edges as well (sharing the same attribute dict). -/
def _add_path (s : Settings) (G : Graph) (data : Attrs) (one_way : Bool) : Graph :=
  let path_nodes := nodesOf data
  let data := ddel data "nodes"
  let data := if !s.all_oneway then dinsert data "oneway" (.bool one_way) else data
  let path_edges := path_nodes.zip path_nodes.tail
  let G : Graph := ⟨G.meta, G.nodes, G.edges ++ path_edges.map (fun p => (p.1, p.2, data))⟩
  if !one_way then
    ⟨G.meta, G.nodes, G.edges ++ path_edges.map (fun p => (p.2, p.1, data))⟩
  else G

/-- The tokens the source recognizes in the raw `oneway` tag as meaning
"this way is one-way". -/
def osm_oneway_values : List Val :=
  [.str "yes", .str "true", .str "1", .str "-1", .str "T", .str "F"]

/-- Model of `_add_paths` of the source: per path, first match wins among
force-all-oneway, recognized oneway token (reversing the node order for
`-1`/`T`), roundabout junction, and the bidirectional default. -/
def _add_paths (s : Settings) (G : Graph) (paths : Dict Val Attrs)
    (bidirectional : Bool) : Graph :=
  paths.foldl
    (fun G kv =>
      let data := kv.2
      if s.all_oneway then _add_path s G data true
      else if (dmem data "oneway" && osm_oneway_values.contains (dget data "oneway"))
              && !bidirectional then
        let data :=
          if dget data "oneway" = .str "-1" ∨ dget data "oneway" = .str "T" then
            dinsert data "nodes" (.intList (nodesOf data).reverse)
          else data
        _add_path s G data true
      else if (dmem data "junction" && decide (dget data "junction" = .str "roundabout"))
              && !bidirectional then
        _add_path s G data true
      else _add_path s G data false)
    G

/-- The typed failure of graph assembly on empty merged input. -/
inductive GraphError where
  | EmptyOverpassResponse : String → GraphError
deriving DecidableEq, Repr

/-- Model of `_create_graph` of the source: check that the concatenation of all
batches is non-empty, create the graph with its metadata, merge the
per-batch node and path maps last-write-wins in batch order, add the
nodes, then materialize every path.  The largest-connected-component
retention and the edge-length annotation that follow in the source live in
the external `utils_graph` / `utils_geo` modules (out of scope of this
core, per the delegation contract); the model returns the assembled graph. -/
def _create_graph (s : Settings) (response_jsons : List Batch)
    (bidirectional : Bool) : Except GraphError Graph :=
  let elements := (response_jsons.map Batch.elements).flatten
  if elements.length < 1 then
    .error (.EmptyOverpassResponse "There are no data elements in the response JSON objects")
  else
    let meta : Attrs :=
      [("created_date", .str s.created_date),
       ("created_with", .str ("OSMnx " ++ s.version)),
       ("crs", .str s.default_crs)]
    let G : Graph := ⟨meta, [], []⟩
    let np :=
      response_jsons.foldl
        (fun acc osm_data =>
          let t := _parse_osm_nodes_paths s osm_data
          (t.1.foldl (fun m kv => dinsert m kv.1 kv.2) acc.1,
           t.2.foldl (fun m kv => dinsert m kv.1 kv.2) acc.2))
        ([], [])
    let G := np.1.foldl (fun G kv => (⟨G.meta, dinsert G.nodes kv.1 kv.2, G.edges⟩ : Graph)) G
    .ok (_add_paths s G np.2 bidirectional)

/-- A SAX event stream stands in for the XML byte stream: `start` carries
the element name and its attribute dictionary, `stop` is the matching end
tag.  Attribute values already carry the typed value their text denotes
(the source's `float(...)` / `int(...)` conversions of the decimal text
become `pyFloat` / `pyInt` below). -/
inductive SaxEvent where
  | start : String → Attrs → SaxEvent
  | stop : String → SaxEvent
deriving DecidableEq, Repr

/-- The content handler's mutable state: the single in-flight element and
the accumulated `self.object['elements']` list. -/
structure HandlerState where
  element : Option Attrs
  elements : List Attrs
deriving DecidableEq, Repr

/-- Python `float(...)` applied to an attribute value (numeric text is
modelled as the number it denotes; anything else is a conversion error). -/
def pyFloat : Val → Val
  | .rat q => .rat q
  | .int n => .rat (n : Rat)
  | _ => .missing

/-- Python `int(...)` applied to an attribute value. -/
def pyInt : Val → Val
  | .int n => .int n
  | _ => .missing

/-- Coerce a value to a string (`attrs['k']`, always a string in XML). -/
def strOf : Val → String
  | .str t => t
  | _ => ""

/-- Coerce a value to an integer (`int(attrs['ref'])`). -/
def intOf : Val → Int
  | .int n => n
  | _ => 0

/-- The dictionary-comprehension update of the handler:
`e.update({k: f(attrs[k]) for k in attrs.keys() if k in keys})`.  The fold
runs over `keys`; since every updated key is already present in `e`
(inserted by the preceding `**attrs` splat), the in-place overwrite makes
the iteration order immaterial. -/
def updKeys (f : Val → Val) (keys : List String) (attrs : Attrs) (e : Attrs) : Attrs :=
  keys.foldl
    (fun e k =>
      match dget? attrs k with
      | some v => dinsert e k (f v)
      | none => e)
    e

/-- Model of `startElement` of `_OSMContentHandler`.  The `osm` branch only stamps
document metadata onto `self.object` (never read by the classifier) and is
a no-op on the modelled state; `relation` elements are ignored; a `tag` or
`nd` child with no in-flight element would crash the source and is left as
a no-op here (it cannot occur in a well-formed document). -/
def startElement (st : HandlerState) (name : String) (attrs : Attrs) : HandlerState :=
  if name = "osm" then st
  else if name = "node" ∨ name = "way" then
    let e : Attrs := [("type", .str name), ("tags", .strDict []), ("nodes", .intList [])]
    let e := attrs.foldl (fun e kv => dinsert e kv.1 kv.2) e
    let e := updKeys pyFloat ["lat", "lon"] attrs e
    let e := updKeys pyInt ["id", "uid", "version", "changeset"] attrs e
    ⟨some e, st.elements⟩
  else if name = "tag" then
    match st.element with
    | some e =>
        let t := dinsert (tagsOf e) (strOf (dget attrs "k")) (strOf (dget attrs "v"))
        ⟨some (dinsert e "tags" (.strDict t)), st.elements⟩
    | none => st
  else if name = "nd" then
    match st.element with
    | some e =>
        ⟨some (dinsert e "nodes" (.intList (nodesOf e ++ [intOf (dget attrs "ref")]))),
         st.elements⟩
    | none => st
  else st

/-- Model of `endElement` of `_OSMContentHandler`: closing a `node` or `way`
appends the in-flight element to the output list. -/
def endElement (st : HandlerState) (name : String) : HandlerState :=
  if name = "node" ∨ name = "way" then
    match st.element with
    | some e => ⟨some e, st.elements ++ [e]⟩
    | none => st
  else st

/-- One SAX callback dispatch. -/
def stepEvent (st : HandlerState) (ev : SaxEvent) : HandlerState :=
  match ev with
  | .start n a => startElement st n a
  | .stop n => endElement st n

/-- Run the handler from a given state over an event stream. -/
def runFrom (st : HandlerState) (events : List SaxEvent) : HandlerState :=
  events.foldl stepEvent st

/-- Model of `_overpass_json_from_file` of the source, past the byte-stream layer:
run a fresh content handler over the document's event stream and wrap the
collected elements as an Overpass-like batch. -/
def _overpass_json_from_file (events : List SaxEvent) : Batch :=
  ⟨(runFrom ⟨none, []⟩ events).elements⟩

/-- Modelled from the spec (refinement side of the XML/JSON equivalence):
an abstract description of one OSM node — id, coordinates and tag list —
from which both wire formats are rendered. -/
structure NodeDesc where
  id : Int
  lat : Rat
  lon : Rat
  tags : List (String × String)
deriving DecidableEq, Repr

/-- Modelled from the spec: an abstract description of one OSM way. -/
structure WayDesc where
  id : Int
  nds : List Int
  tags : List (String × String)
deriving DecidableEq, Repr

/-- Modelled from the spec: one described element, node or way. -/
inductive OsmItem where
  | node : NodeDesc → OsmItem
  | way : WayDesc → OsmItem
deriving DecidableEq, Repr

/-- The tag dictionary a JSON decoder builds from a tag list: insert in
order, later duplicate keys overwriting earlier ones. -/
def tagDict (tags : List (String × String)) : Tags :=
  tags.foldl (fun m kv => dinsert m kv.1 kv.2) []

/-- The hand-constructed Overpass JSON element for one described item. -/
def jsonElement : OsmItem → Attrs
  | .node n =>
      [("type", .str "node"), ("id", .int n.id), ("lat", .rat n.lat),
       ("lon", .rat n.lon), ("tags", .strDict (tagDict n.tags))]
  | .way w =>
      [("type", .str "way"), ("id", .int w.id), ("nodes", .intList w.nds),
       ("tags", .strDict (tagDict w.tags))]

/-- The hand-constructed Overpass JSON batch for a described document. -/
def jsonBatch (items : List OsmItem) : Batch :=
  ⟨items.map jsonElement⟩

/-- The SAX events of the nested `tag` children of one element. -/
def tagEvents (tags : List (String × String)) : List SaxEvent :=
  (tags.map (fun kv =>
    [SaxEvent.start "tag" [("k", .str kv.1), ("v", .str kv.2)], SaxEvent.stop "tag"])).flatten

/-- The SAX events of the nested `nd` children of one way. -/
def ndEvents (nds : List Int) : List SaxEvent :=
  (nds.map (fun r =>
    [SaxEvent.start "nd" [("ref", .int r)], SaxEvent.stop "nd"])).flatten

/-- The SAX events of one described element in the XML document. -/
def itemEvents : OsmItem → List SaxEvent
  | .node n =>
      [SaxEvent.start "node" [("id", .int n.id), ("lat", .rat n.lat), ("lon", .rat n.lon)]]
        ++ tagEvents n.tags ++ [SaxEvent.stop "node"]
  | .way w =>
      [SaxEvent.start "way" [("id", .int w.id)]]
        ++ ndEvents w.nds ++ tagEvents w.tags ++ [SaxEvent.stop "way"]

/-- The full OSM XML document (as events) for a described element list. -/
def xmlEvents (items : List OsmItem) : List SaxEvent :=
  [SaxEvent.start "osm" [("version", .str "0.6"), ("generator", .str "handwritten")]]
    ++ (items.map itemEvents).flatten ++ [SaxEvent.stop "osm"]

/-- Tail worker of `runs`: the current run has key `x` and length `n`. -/
def runsFrom (x : Int) (n : Nat) : List Int → List (Int × Nat)
  | [] => [(x, n)]
  | y :: ys => if y = x then runsFrom x (n + 1) ys else (x, n) :: runsFrom y 1 ys

/-- Modelled from the spec: the run-length decomposition of a sequence
into its maximal runs of equal adjacent elements, each run given as
(representative, length).  Used to state that the Path Reducer returns
exactly the run representatives. -/
def runs : List Int → List (Int × Nat)
  | [] => []
  | x :: xs => runsFrom x 1 xs

/-- One forward edge run: a directed edge per consecutive node pair, all
sharing one attribute dictionary (the source's `zip` of the node list
with its tail). -/
def forwardRun (ns : List Int) (A : Attrs) : List (Int × Int × Attrs) :=
  (ns.zip ns.tail).map (fun p => (p.1, p.2, A))

/-- The node-pair reversal of the forward run (the source's
`[(v, u) for u, v in path_edges]`). -/
def backwardRun (ns : List Int) (A : Attrs) : List (Int × Int × Attrs) :=
  (ns.zip ns.tail).map (fun p => (p.2, p.1, A))

/-- The attribute dictionary `_add_path` stamps on every edge it creates:
the path's attributes minus `nodes`, with `oneway` set to the resolved
boolean unless the `all_oneway` setting is on. -/
def addPathAttrs (s : Settings) (data : Attrs) (one_way : Bool) : Attrs :=
  if !s.all_oneway then dinsert (ddel data "nodes") "oneway" (.bool one_way)
  else ddel data "nodes"

/-- The map `tagDict` generalized to an arbitrary starting dictionary (the
in-flight element's tag dictionary grows from the empty one). -/
def tagDictFrom (t : Tags) (tags : List (String × String)) : Tags :=
  tags.foldl (fun m kv => dinsert m kv.1 kv.2) t

/-- The shape of the handler's in-flight element: the three literal keys
of `dict(type=name, tags={}, nodes=[], ...)` followed by the element-level
attributes. -/
def inflight (ty : String) (t : Tags) (ns : List Int) (rest : Attrs) : Attrs :=
  ("type", .str ty) :: ("tags", .strDict t) :: ("nodes", .intList ns) :: rest

/-- The element the XML Normalizer produces for one described item. -/
def xmlElement : OsmItem → Attrs
  | .node n =>
      inflight "node" (tagDict n.tags) []
        [("id", .int n.id), ("lat", .rat n.lat), ("lon", .rat n.lon)]
  | .way w => inflight "way" (tagDict w.tags) w.nds [("id", .int w.id)]

/-- The attribute dictionary the resolver stamps on the edges of a
bidirectional path when `all_oneway` is off: the path's attributes minus
`nodes`, with `oneway` overwritten by `false`. -/
def bidiAttrs (data : Attrs) : Attrs :=
  dinsert (ddel data "nodes") "oneway" (.bool false)

/-- An empty starting graph for concrete witness runs. -/
def G0 : Graph := ⟨[], [], []⟩

/-- Concrete settings whose path allow-list contains only `oneway`. -/
def sO : Settings := ⟨[], ["oneway"], false, "epsg:4326", "ts0", "0.0"⟩

/-- Concrete settings whose path allow-list is empty. -/
def sNone : Settings := ⟨[], [], false, "epsg:4326", "ts0", "0.0"⟩

/-- Concrete settings for witness runs: `all_oneway` off, the `oneway`,
`junction` and `highway` keys allow-listed for paths. -/
def sW : Settings :=
  ⟨["highway"], ["oneway", "junction", "highway"], false, "epsg:4326", "ts0", "0.0"⟩

/-- Concrete settings for witness runs with `all_oneway` on. -/
def sAO : Settings :=
  ⟨["highway"], ["oneway", "junction", "highway"], true, "epsg:4326", "ts0", "0.0"⟩

/-- A concrete path dictionary: nodes `[1,2,3]`, raw `oneway = "-1"`. -/
def dRev : Attrs :=
  [("osmid", .int 8), ("nodes", .intList [1, 2, 3]), ("oneway", .str "-1")]

/-- A concrete path dictionary with no `oneway` and no `junction` tag. -/
def dBi : Attrs :=
  [("osmid", .int 9), ("nodes", .intList [1, 2, 3]), ("highway", .str "residential")]

/-- A concrete path dictionary with raw `oneway = "yes"` retained. -/
def dYes : Attrs :=
  [("osmid", .int 10), ("nodes", .intList [1, 2]), ("oneway", .str "yes")]

/-- A concrete path dictionary with the unrecognized token
`oneway = "reversible"`. -/
def dRevers : Attrs :=
  [("osmid", .int 11), ("nodes", .intList [1, 2, 3]), ("oneway", .str "reversible"),
   ("highway", .str "residential")]

/-- A concrete way element whose tags carry `oneway = "-1"`. -/
def eWayOneway : Attrs :=
  [("type", .str "way"), ("id", .int 1), ("nodes", .intList [1, 2]),
   ("tags", .strDict [("oneway", "-1"), ("junction", "roundabout")])]

/-- A concrete JSON node element, parameterized by id, coordinates and tags. -/
def jsonNodeElem (i : Int) (la lo : Rat) (t : Tags) : Attrs :=
  [("type", .str "node"), ("id", .int i), ("lat", .rat la), ("lon", .rat lo),
   ("tags", .strDict t)]

/-- The node dictionary of an assembled graph, `none` on assembly failure. -/
def graphNode (r : Except GraphError Graph) (key : Val) : Option Attrs :=
  match r with
  | .ok g => dget? g.nodes key
  | .error _ => none

/-! Dictionary lemmas. -/

theorem dget?_dinsert {κ α : Type} [DecidableEq κ] (m : Dict κ α) (k q : κ) (v : α) :
    dget? (dinsert m k v) q = if k = q then some v else dget? m q := by
  induction m with
  | nil => simp [dinsert, dget?]
  | cons p rest ih =>
    obtain ⟨a, b⟩ := p
    by_cases hak : a = k
    · subst hak
      by_cases haq : a = q <;> simp [dinsert, dget?, haq]
    · by_cases haq : a = q
      · subst haq
        have hkq : ¬ k = a := fun h => hak h.symm
        simp [dinsert, dget?, hak, hkq]
      · simp [dinsert, dget?, hak, haq, ih]

theorem dget?_ddel {κ α : Type} [DecidableEq κ] (m : Dict κ α) (k q : κ) :
    dget? (ddel m k) q = if k = q then none else dget? m q := by
  induction m with
  | nil => simp [ddel, dget?]
  | cons p rest ih =>
    obtain ⟨a, b⟩ := p
    by_cases hak : a = k
    · subst hak
      have h1 : ddel ((a, b) :: rest) a = ddel rest a := by simp [ddel]
      rw [h1, ih]
      by_cases haq : a = q <;> simp [dget?, haq]
    · have h1 : ddel ((a, b) :: rest) k = (a, b) :: ddel rest k := by simp [ddel, hak]
      rw [h1]
      by_cases haq : a = q
      · subst haq
        have hkq : ¬ k = a := fun h => hak h.symm
        simp [dget?, hkq]
      · simp [dget?, haq, ih]

theorem ddel_dinsert {κ α : Type} [DecidableEq κ] (m : Dict κ α) (k : κ) (v : α) :
    ddel (dinsert m k v) k = ddel m k := by
  induction m with
  | nil => simp [dinsert, ddel]
  | cons p rest ih =>
    obtain ⟨a, b⟩ := p
    by_cases hak : a = k
    · subst hak
      simp [dinsert, ddel]
    · have h1 : dinsert ((a, b) :: rest) k v = (a, b) :: dinsert rest k v := by
        simp [dinsert, hak]
      have h2 : ddel ((a, b) :: rest) k = (a, b) :: ddel rest k := by
        simp [ddel, hak]
      have h3 : ddel ((a, b) :: dinsert rest k v) k = (a, b) :: ddel (dinsert rest k v) k := by
        simp [ddel, hak]
      rw [h1, h3, ih, h2]

theorem dmem_eq (m : Attrs) (q : String) : dmem m q = (dget? m q).isSome := rfl

theorem dget_eq_of_dget? (m : Attrs) (q : String) (v : Val) (h : dget? m q = some v) :
    dget m q = v := by
  simp [dget, h]

theorem nodesOf_dinsert_nodes (m : Attrs) (l : List Int) :
    nodesOf (dinsert m "nodes" (.intList l)) = l := by
  simp [nodesOf, dget, dget?_dinsert, intListOf]

theorem copyUsefulTags_of_not_mem (allow : List String) (tags : Tags) (dst : Attrs)
    (q : String) (hq : q ∉ allow) :
    dget? (copyUsefulTags allow tags dst) q = dget? dst q := by
  induction allow generalizing dst with
  | nil => rfl
  | cons a rest ih =>
    have haq : ¬ a = q := fun h => hq (h ▸ List.mem_cons_self a rest)
    have hrest : q ∉ rest := fun h => hq (List.mem_cons_of_mem a h)
    cases hv : dget? tags a with
    | none => simpa [copyUsefulTags, hv] using ih dst hrest
    | some w =>
        have := ih (dinsert dst a (.str w)) hrest
        simpa [copyUsefulTags, hv, dget?_dinsert, haq] using this

theorem copyUsefulTags_of_mem (allow : List String) (tags : Tags) (dst : Attrs)
    (q : String) (v : String) (hq : q ∈ allow) (hv : dget? tags q = some v) :
    dget? (copyUsefulTags allow tags dst) q = some (.str v) := by
  induction allow generalizing dst with
  | nil => cases hq
  | cons a rest ih =>
    by_cases hmem : q ∈ rest
    · cases hd : dget? tags a with
      | none => simpa [copyUsefulTags, hd] using ih dst hmem
      | some w => simpa [copyUsefulTags, hd] using ih (dinsert dst a (.str w)) hmem
    · have haq : a = q := by
        rcases List.mem_cons.mp hq with h | h
        · exact h.symm
        · exact absurd h hmem
      subst haq
      have step : dget? (copyUsefulTags (a :: rest) tags dst) a
          = dget? (copyUsefulTags rest tags (dinsert dst a (.str v))) a := by
        simp [copyUsefulTags, hv]
      rw [step, copyUsefulTags_of_not_mem rest tags _ a hmem, dget?_dinsert]
      simp

/-! Edge-materialization lemmas. -/

theorem _add_path_edges (s : Settings) (G : Graph) (data : Attrs) (one_way : Bool) :
    (_add_path s G data one_way).edges
      = G.edges ++ forwardRun (nodesOf data) (addPathAttrs s data one_way)
          ++ (if one_way then []
              else backwardRun (nodesOf data) (addPathAttrs s data one_way)) := by
  cases one_way <;> simp [_add_path, addPathAttrs, forwardRun, backwardRun]

theorem addPathAttrs_nodes (s : Settings) (data : Attrs) (w : Bool) :
    dget? (addPathAttrs s data w) "nodes" = none := by
  by_cases h : s.all_oneway <;> simp [addPathAttrs, h, dget?_dinsert, dget?_ddel]

theorem addPathAttrs_of_ne (s : Settings) (data : Attrs) (w : Bool) (q : String)
    (h1 : q ≠ "nodes") (h2 : q ≠ "oneway") :
    dget? (addPathAttrs s data w) q = dget? data q := by
  by_cases h : s.all_oneway <;>
    simp [addPathAttrs, h, dget?_dinsert, dget?_ddel, Ne.symm h1, Ne.symm h2]

theorem addPathAttrs_oneway (s : Settings) (data : Attrs) (w : Bool)
    (h : s.all_oneway = false) :
    dget? (addPathAttrs s data w) "oneway" = some (.bool w) := by
  simp [addPathAttrs, h, dget?_dinsert]

theorem _add_paths_singleton (s : Settings) (G : Graph) (key : Val) (data : Attrs) (b : Bool) :
    _add_paths s G [(key, data)] b
      = (if s.all_oneway then _add_path s G data true
         else if (dmem data "oneway" && osm_oneway_values.contains (dget data "oneway"))
                 && !b then
           _add_path s G
             (if dget data "oneway" = .str "-1" ∨ dget data "oneway" = .str "T" then
                dinsert data "nodes" (.intList (nodesOf data).reverse)
              else data) true
         else if (dmem data "junction" && decide (dget data "junction" = .str "roundabout"))
                 && !b then
           _add_path s G data true
         else _add_path s G data false) := rfl

/-! Run-decomposition lemmas for the Path Reducer. -/

theorem runsFrom_map_fst (ys : List Int) : ∀ (x : Int) (n : Nat),
    (runsFrom x n ys).map Prod.fst = x :: collapseFrom x ys := by
  induction ys with
  | nil => intro x n; simp [runsFrom, collapseFrom]
  | cons y ys ih =>
    intro x n
    by_cases hyx : y = x
    · subst hyx; simp [runsFrom, collapseFrom, ih]
    · simp [runsFrom, collapseFrom, hyx, ih]

theorem runsFrom_expand (ys : List Int) : ∀ (x : Int) (n : Nat),
    ((runsFrom x n ys).map (fun p => List.replicate p.2 p.1)).flatten
      = List.replicate n x ++ ys := by
  induction ys with
  | nil => intro x n; simp [runsFrom]
  | cons y ys ih =>
    intro x n
    by_cases hyx : y = x
    · subst hyx
      simp only [runsFrom, eq_self_iff_true, if_true]
      rw [ih]
      simp [List.replicate_succ', List.append_assoc]
    · simp [runsFrom, hyx, ih]

theorem chain_ne_collapseFrom (ys : List Int) : ∀ x : Int,
    List.Chain' (fun a b => a ≠ b) (x :: collapseFrom x ys) := by
  induction ys with
  | nil => intro x; simp [collapseFrom]
  | cons y ys ih =>
    intro x
    by_cases hyx : y = x
    · subst hyx; simpa [collapseFrom] using ih y
    · have hcc : collapseFrom x (y :: ys) = y :: collapseFrom y ys := by
        simp [collapseFrom, hyx]
      rw [hcc, List.chain'_cons]
      exact ⟨fun h => hyx h.symm, ih y⟩

theorem runsFrom_pos (ys : List Int) : ∀ (x : Int) (n : Nat), 0 < n →
    ∀ p ∈ runsFrom x n ys, 0 < p.2 := by
  induction ys with
  | nil =>
    intro x n hn p hp
    simp [runsFrom] at hp
    rw [hp]
    exact hn
  | cons y ys ih =>
    intro x n hn p hp
    by_cases hyx : y = x
    · subst hyx
      exact ih y (n + 1) (Nat.succ_pos n) p (by simpa [runsFrom] using hp)
    · simp only [runsFrom, if_neg hyx, List.mem_cons] at hp
      rcases hp with hp | hp
      · rw [hp]; exact hn
      · exact ih y 1 Nat.one_pos p hp

/-! Claim C6. -/

/-- C6: the Path Reducer removes exactly the consecutive equal node
references: the output is the sequence of representatives of the maximal
runs of equal adjacent elements — `runs` is a genuine run decomposition
(its runs expand back to the input and have positive length) and the
reducer output is its key sequence, with no equal adjacent pair left; in
particular `reduce([1,1,2,2,2,3]) = [1,2,3]` and
`reduce([1,2,1,1,2]) = [1,2,1,2]`. -/
theorem path_reducer_maximal_runs :
    (∀ xs : List Int,
        groupbyHeads xs = (runs xs).map Prod.fst ∧
        ((runs xs).map (fun p => List.replicate p.2 p.1)).flatten = xs ∧
        List.Chain' (fun a b => a ≠ b) (groupbyHeads xs) ∧
        ∀ p ∈ runs xs, 0 < p.2) ∧
    groupbyHeads [1, 1, 2, 2, 2, 3] = [1, 2, 3] ∧
    groupbyHeads [1, 2, 1, 1, 2] = [1, 2, 1, 2] := by
  refine ⟨fun xs => ?_, by decide, by decide⟩
  cases xs with
  | nil => exact ⟨rfl, rfl, by simp [groupbyHeads], by simp [runs]⟩
  | cons x t =>
      exact ⟨(runsFrom_map_fst t x 1).symm,
             by simpa using runsFrom_expand t x 1,
             chain_ne_collapseFrom t x,
             runsFrom_pos t x 1 Nat.one_pos⟩

/-- Witness for C6 at a concrete input: `(1, 2)` is a maximal run of
`[1, 1, 2]` and its length is positive. -/
theorem path_reducer_maximal_runs_witness :
    ((1 : Int), (2 : Nat)) ∈ runs [1, 1, 2] ∧ 0 < ((1 : Int), (2 : Nat)).2 :=
  ⟨by decide, (path_reducer_maximal_runs.1 [1, 1, 2]).2.2.2 _ (by decide)⟩

/-! Claim C2. -/

/-- C2: a path whose raw `oneway` value is `"-1"` (or `"T"`), with
force-all-oneway off and no bidirectional override, materializes exactly
one run over the reversed node order, every edge carrying `oneway = true`. -/
theorem oneway_reversed_single_run (s : Settings) (G : Graph) (key : Val) (data : Attrs)
    (h1 : s.all_oneway = false)
    (h2 : dget? data "oneway" = some (.str "-1") ∨ dget? data "oneway" = some (.str "T")) :
    (_add_paths s G [(key, data)] false).edges
      = G.edges ++ forwardRun (nodesOf data).reverse
          (dinsert (ddel data "nodes") "oneway" (.bool true)) ∧
    dget? (dinsert (ddel data "nodes") "oneway" (.bool true)) "oneway"
      = some (.bool true) := by
  have hrev : dget data "oneway" = Val.str "-1" ∨ dget data "oneway" = Val.str "T" := by
    rcases h2 with h2 | h2
    · exact Or.inl (dget_eq_of_dget? _ _ _ h2)
    · exact Or.inr (dget_eq_of_dget? _ _ _ h2)
  have hmem : dmem data "oneway" = true := by
    rcases h2 with h2 | h2 <;> simp [dmem, h2]
  have hcont : osm_oneway_values.contains (dget data "oneway") = true := by
    rcases hrev with h | h <;> rw [h] <;> rfl
  constructor
  · rw [_add_paths_singleton, if_neg (by simp [h1]),
      if_pos (by simp [hmem]; simpa using hcont), if_pos hrev, _add_path_edges]
    simp [addPathAttrs, h1, nodesOf_dinsert_nodes, ddel_dinsert]
  · rw [dget?_dinsert]
    simp

/-- Witness for C2: node refs `[1, 2, 3]` with `oneway = "-1"` yield
exactly the edges `(3, 2)` and `(2, 1)`, each carrying `oneway = true`. -/
theorem oneway_reversed_single_run_witness :
    (_add_paths sW G0 [(Val.int 8, dRev)] false).edges
      = [(3, 2, [("osmid", Val.int 8), ("oneway", Val.bool true)]),
         (2, 1, [("osmid", Val.int 8), ("oneway", Val.bool true)])] ∧
    dget? [("osmid", Val.int 8), ("oneway", Val.bool true)] "oneway"
      = some (.bool true) := by
  have h := oneway_reversed_single_run sW G0 (Val.int 8) dRev rfl (Or.inl rfl)
  exact ⟨h.1.trans (by decide), by decide⟩

/-! Claim C4. -/

/-- C4 counterexample: with force-all-oneway on, a path whose retained
tags include the raw `oneway` tag produces an edge whose attribute
dictionary DOES contain an `oneway` key (the raw string value), so "no
`oneway` attribute is attached to any of the resulting edges" fails as a
statement about the edges' attribute maps. -/
theorem force_all_oneway_attr_counterexample :
    (_add_paths sAO G0 [(Val.int 10, dYes)] false).edges
      = [(1, 2, [("osmid", Val.int 10), ("oneway", Val.str "yes")])] ∧
    dmem [("osmid", Val.int 10), ("oneway", Val.str "yes")] "oneway" = true := by
  exact ⟨by decide, by decide⟩

/-- C4 (amended): with force-all-oneway on, every path — whatever its
tags — yields exactly one forward run in unchanged node order, and the
resolver attaches no `oneway` attribute: each edge's attribute dictionary
is exactly the path's attributes minus `nodes`, so it carries an `oneway`
key only when the path's retained tags already did (and then with the
raw value, unmodified). -/
theorem force_all_oneway_forward_run (s : Settings) (G : Graph) (key : Val) (data : Attrs)
    (b : Bool) (h : s.all_oneway = true) :
    (_add_paths s G [(key, data)] b).edges
      = G.edges ++ forwardRun (nodesOf data) (ddel data "nodes") ∧
    (dget? data "oneway" = none → dget? (ddel data "nodes") "oneway" = none) := by
  constructor
  · rw [_add_paths_singleton, if_pos (by simp [h]), _add_path_edges]
    simp [addPathAttrs, h]
  · intro hn
    rw [dget?_ddel]
    simp [hn]

/-- Witness for C4 (amended): an untagged path under force-all-oneway
yields the single forward run and its edge attributes carry no `oneway`
key. -/
theorem force_all_oneway_forward_run_witness :
    (_add_paths sAO G0 [(Val.int 9, dBi)] false).edges
      = [(1, 2, [("osmid", Val.int 9), ("highway", Val.str "residential")]),
         (2, 3, [("osmid", Val.int 9), ("highway", Val.str "residential")])] ∧
    dget? (ddel dBi "nodes") "oneway" = none := by
  have h := force_all_oneway_forward_run sAO G0 (Val.int 9) dBi false rfl
  exact ⟨h.1.trans (by decide), h.2 (by decide)⟩

/-! Helpers shared by the directionality claims. -/

theorem attr_of_mem_forwardRun (ns : List Int) (A : Attrs) :
    ∀ e ∈ forwardRun ns A, e.2.2 = A := by
  intro e he
  rcases List.mem_map.mp he with ⟨p, _, hp⟩
  rw [← hp]

theorem attr_of_mem_backwardRun (ns : List Int) (A : Attrs) :
    ∀ e ∈ backwardRun ns A, e.2.2 = A := by
  intro e he
  rcases List.mem_map.mp he with ⟨p, _, hp⟩
  rw [← hp]

theorem _add_path_new_edges_attr (s : Settings) (G : Graph) (data : Attrs) (w : Bool) :
    ∀ e ∈ ((_add_path s G data w).edges).drop G.edges.length,
      e.2.2 = addPathAttrs s data w := by
  intro e he
  rw [_add_path_edges, List.append_assoc, List.drop_left] at he
  rcases List.mem_append.mp he with h | h
  · exact attr_of_mem_forwardRun _ _ e h
  · cases w with
    | true => simp at h
    | false => exact attr_of_mem_backwardRun _ _ e (by simpa using h)

theorem else_branch_run (s : Settings) (G : Graph) (key : Val) (data : Attrs) (b : Bool)
    (h1 : s.all_oneway = false)
    (h2 : ((∀ v, dget? data "oneway" = some v → v ∉ osm_oneway_values) ∧
           dget? data "junction" ≠ some (.str "roundabout")) ∨ b = true) :
    (_add_paths s G [(key, data)] b).edges
      = G.edges ++ forwardRun (nodesOf data) (bidiAttrs data)
          ++ backwardRun (nodesOf data) (bidiAttrs data) := by
  have hc2 : ((dmem data "oneway" && osm_oneway_values.contains (dget data "oneway"))
      && !b) = false := by
    rcases h2 with ⟨hno, _⟩ | hb
    · cases hov : dget? data "oneway" with
      | none => simp [dmem, hov]
      | some v =>
          have hni : v ∉ osm_oneway_values := hno v hov
          simp [dget, hov, hni]
    · subst hb; simp
  have hc3 : ((dmem data "junction" && decide (dget data "junction" = .str "roundabout"))
      && !b) = false := by
    rcases h2 with ⟨_, hj⟩ | hb
    · cases hov : dget? data "junction" with
      | none => simp [dmem, hov]
      | some v =>
          have hv : ¬ v = Val.str "roundabout" := fun h => hj (by rw [hov, h])
          simp [dmem, dget, hov, hv]
    · subst hb; simp
  rw [_add_paths_singleton, if_neg (by simp [h1]), if_neg (by rw [hc2]; simp),
    if_neg (by rw [hc3]; simp), _add_path_edges]
  simp [addPathAttrs, bidiAttrs, h1]

/-! Claim C3. -/

/-- C3: with force-all-oneway off, a path with no recognized `oneway`
token and `junction` not `"roundabout"` — or with the bidirectional
override on — materializes exactly two runs: the forward run over the
stored node order plus the node-pair reversal of each forward edge, all
edges carrying `oneway = false`. -/
theorem bidirectional_two_runs (s : Settings) (G : Graph) (key : Val) (data : Attrs)
    (b : Bool) (h1 : s.all_oneway = false)
    (h2 : ((∀ v, dget? data "oneway" = some v → v ∉ osm_oneway_values) ∧
           dget? data "junction" ≠ some (.str "roundabout")) ∨ b = true) :
    (_add_paths s G [(key, data)] b).edges
      = G.edges ++ forwardRun (nodesOf data) (bidiAttrs data)
          ++ backwardRun (nodesOf data) (bidiAttrs data) ∧
    dget? (bidiAttrs data) "oneway" = some (.bool false) := by
  refine ⟨else_branch_run s G key data b h1 h2, ?_⟩
  rw [bidiAttrs, dget?_dinsert]
  simp

/-- Witness for C3: node refs `[1, 2, 3]` with no `oneway` tag yield
exactly the four edges `(1,2), (2,3), (2,1), (3,2)`, all with
`oneway = false`. -/
theorem bidirectional_two_runs_witness :
    (_add_paths sW G0 [(Val.int 9, dBi)] false).edges
      = [(1, 2, [("osmid", Val.int 9), ("highway", Val.str "residential"),
                 ("oneway", Val.bool false)]),
         (2, 3, [("osmid", Val.int 9), ("highway", Val.str "residential"),
                 ("oneway", Val.bool false)]),
         (2, 1, [("osmid", Val.int 9), ("highway", Val.str "residential"),
                 ("oneway", Val.bool false)]),
         (3, 2, [("osmid", Val.int 9), ("highway", Val.str "residential"),
                 ("oneway", Val.bool false)])] ∧
    dget? (bidiAttrs dBi) "oneway" = some (.bool false) := by
  have h := bidirectional_two_runs sW G0 (Val.int 9) dBi false rfl
    (Or.inl ⟨(fun v hv => by cases hv), (fun hj => by cases hj)⟩)
  exact ⟨h.1.trans (by decide), h.2⟩

/-! Claim C5. -/

/-- C5: a path whose raw `oneway` value is an unrecognized token (such as
`"reversible"`), with force-all-oneway off and `junction` not
`"roundabout"`, behaves exactly as if it had no `oneway` tag at all: both
fall through to the bidirectional branch, emit the same two runs with
`oneway = false`, and the edge attribute dictionaries agree pointwise
(the resolver overwrites the token with the boolean either way). -/
theorem unrecognized_oneway_like_untagged (s : Settings) (G : Graph) (key : Val)
    (data : Attrs) (b : Bool) (v : Val)
    (h1 : s.all_oneway = false)
    (h2 : dget? data "oneway" = some v)
    (h3 : v ∉ osm_oneway_values)
    (h4 : dget? data "junction" ≠ some (.str "roundabout")) :
    ((_add_paths s G [(key, data)] b).edges
        = G.edges ++ forwardRun (nodesOf data) (bidiAttrs data)
            ++ backwardRun (nodesOf data) (bidiAttrs data)) ∧
    ((_add_paths s G [(key, ddel data "oneway")] b).edges
        = G.edges ++ forwardRun (nodesOf data) (bidiAttrs (ddel data "oneway"))
            ++ backwardRun (nodesOf data) (bidiAttrs (ddel data "oneway"))) ∧
    (∀ q, dget? (bidiAttrs data) q = dget? (bidiAttrs (ddel data "oneway")) q) ∧
    dget? (bidiAttrs data) "oneway" = some (.bool false) := by
  have hno : ∀ w, dget? data "oneway" = some w → w ∉ osm_oneway_values := by
    intro w hw
    rw [h2] at hw
    cases hw
    exact h3
  have hnodes : nodesOf (ddel data "oneway") = nodesOf data := by
    simp [nodesOf, dget, dget?_ddel]
  have hjunc : dget? (ddel data "oneway") "junction" ≠ some (.str "roundabout") := by
    rw [dget?_ddel]
    simpa using h4
  refine ⟨else_branch_run s G key data b h1 (Or.inl ⟨hno, h4⟩), ?_, ?_, ?_⟩
  · have h := else_branch_run s G key (ddel data "oneway") b h1
      (Or.inl ⟨fun w hw => by rw [dget?_ddel] at hw; simp at hw, hjunc⟩)
    rw [h, hnodes]
  · intro q
    by_cases hq1 : q = "oneway"
    · subst hq1
      simp [bidiAttrs, dget?_dinsert]
    · by_cases hq2 : q = "nodes"
      · subst hq2
        simp [bidiAttrs, dget?_dinsert, dget?_ddel]
      · have hoq : ¬ "oneway" = q := fun h => hq1 h.symm
        have hnq : ¬ "nodes" = q := fun h => hq2 h.symm
        simp [bidiAttrs, dget?_dinsert, dget?_ddel, hoq, hnq]
  · rw [bidiAttrs, dget?_dinsert]
    simp

/-- Witness for C5: node refs `[1, 2, 3]` with `oneway = "reversible"`
fall through to the bidirectional branch, identically to the same path
without the tag. -/
theorem unrecognized_oneway_like_untagged_witness :
    ((_add_paths sW G0 [(Val.int 11, dRevers)] false).edges
        = G0.edges ++ forwardRun (nodesOf dRevers) (bidiAttrs dRevers)
            ++ backwardRun (nodesOf dRevers) (bidiAttrs dRevers)) ∧
    dget? (bidiAttrs dRevers) "oneway" = some (.bool false) := by
  have h := unrecognized_oneway_like_untagged sW G0 (Val.int 11) dRevers false
    (Val.str "reversible") rfl rfl (by decide) (by decide)
  exact ⟨h.1, h.2.2.2⟩

/-! Claim C10. -/

/-- C10: every edge materialized for a path — one-way or bidirectional,
any branch of the resolver — carries an attribute dictionary that never
contains the `nodes` key, agrees with the path's dictionary on `osmid`,
and agrees with it on every key other than `nodes` and the
resolver-owned `oneway`. -/
theorem edge_attrs_never_nodes (s : Settings) (G : Graph) (key : Val) (data : Attrs)
    (b : Bool) :
    ∀ e ∈ ((_add_paths s G [(key, data)] b).edges).drop G.edges.length,
      dget? e.2.2 "nodes" = none ∧
      dget? e.2.2 "osmid" = dget? data "osmid" ∧
      ∀ q, q ≠ "nodes" → q ≠ "oneway" → dget? e.2.2 q = dget? data q := by
  intro e he
  have main : ∀ (data2 : Attrs) (w : Bool),
      (∀ q, q ≠ "nodes" → dget? data2 q = dget? data q) →
      e ∈ ((_add_path s G data2 w).edges).drop G.edges.length →
      dget? e.2.2 "nodes" = none ∧
      dget? e.2.2 "osmid" = dget? data "osmid" ∧
      ∀ q, q ≠ "nodes" → q ≠ "oneway" → dget? e.2.2 q = dget? data q := by
    intro data2 w hq he2
    have hA : e.2.2 = addPathAttrs s data2 w := _add_path_new_edges_attr s G data2 w e he2
    rw [hA]
    refine ⟨addPathAttrs_nodes s data2 w, ?_, ?_⟩
    · rw [addPathAttrs_of_ne s data2 w "osmid" (by decide) (by decide)]
      exact hq "osmid" (by decide)
    · intro q hq1 hq2
      rw [addPathAttrs_of_ne s data2 w q hq1 hq2]
      exact hq q hq1
  rw [_add_paths_singleton] at he
  split_ifs at he with hc1 hc2 hrev hc3
  · exact main data true (fun q _ => rfl) he
  · refine main (dinsert data "nodes" (.intList (nodesOf data).reverse)) true ?_ he
    intro q hq
    rw [dget?_dinsert]
    exact if_neg (fun h => hq h.symm)
  · exact main data true (fun q _ => rfl) he
  · exact main data true (fun q _ => rfl) he
  · exact main data false (fun q _ => rfl) he

/-- Witness for C10: the first edge of a concrete bidirectional path
carries no `nodes` key and keeps the path's `highway` tag and `osmid`. -/
theorem edge_attrs_never_nodes_witness :
    dget? [("osmid", Val.int 9), ("highway", Val.str "residential"),
           ("oneway", Val.bool false)] "nodes" = none ∧
    dget? [("osmid", Val.int 9), ("highway", Val.str "residential"),
           ("oneway", Val.bool false)] "highway" = dget? dBi "highway" := by
  have h := edge_attrs_never_nodes sW G0 (Val.int 9) dBi false
    (1, 2, [("osmid", Val.int 9), ("highway", Val.str "residential"),
            ("oneway", Val.bool false)])
    (by decide)
  exact ⟨h.1, h.2.2 "highway" (by decide) (by decide)⟩

/-! Claim C1. -/

/-- C1 counterexample: with an allow-list that does not contain `oneway`
or `junction`, the raw values present on a way element's tags are NOT
retained on the converted Way record — `_convert_path` copies allow-listed
tags only, with no special case for these two keys. -/
theorem oneway_retention_counterexample :
    dget? (tagsOf eWayOneway) "oneway" = some "-1" ∧
    dget? (tagsOf eWayOneway) "junction" = some "roundabout" ∧
    dget? (_convert_path sNone eWayOneway) "oneway" = none ∧
    dget? (_convert_path sNone eWayOneway) "junction" = none := by
  exact ⟨by decide, by decide, by decide, by decide⟩

/-- C1 (amended): the Element Classifier retains the raw `oneway` /
`junction` tag values on the Way record exactly when those keys are
members of the useful-path-tags allow-list: any allow-listed tag key
present on the element is copied verbatim, and a key outside the
allow-list (other than the record's own `osmid` and `nodes` fields)
never appears on the record — so the Directionality Resolver sees the raw
values only when the caller allow-listed them. -/
theorem oneway_retention_iff_allowlisted (s : Settings) (element : Attrs)
    (q : String) (v : String)
    (hmem : q ∈ s.useful_tags_path) (hv : dget? (tagsOf element) q = some v) :
    dget? (_convert_path s element) q = some (.str v) ∧
    ∀ r : String, r ∉ s.useful_tags_path → r ≠ "osmid" → r ≠ "nodes" →
      dget? (_convert_path s element) r = none := by
  have hdmem : dmem element "tags" = true := by
    cases he : dget? element "tags" with
    | none =>
        exfalso
        have ht : tagsOf element = [] := by simp [tagsOf, he]
        rw [ht] at hv
        cases hv
    | some w => simp [dmem, he]
  constructor
  · simp only [_convert_path, hdmem, if_true]
    exact copyUsefulTags_of_mem s.useful_tags_path (tagsOf element) _ q v hmem hv
  · intro r hr hr1 hr2
    simp only [_convert_path, hdmem, if_true]
    rw [copyUsefulTags_of_not_mem s.useful_tags_path (tagsOf element) _ r hr]
    rw [dget?_dinsert, if_neg (fun h => hr2 h.symm)]
    rw [dget?_dinsert, if_neg (fun h => hr1 h.symm)]
    rfl

/-- Witness for C1 (amended): with the allow-list `["oneway"]`, the raw
`oneway` value is retained on the record while the (non-allow-listed)
`junction` value is dropped. -/
theorem oneway_retention_iff_allowlisted_witness :
    dget? (_convert_path sO eWayOneway) "oneway" = some (.str "-1") ∧
    dget? (_convert_path sO eWayOneway) "junction" = none := by
  have h := oneway_retention_iff_allowlisted sO eWayOneway "oneway" "-1"
    (by decide) (by decide)
  exact ⟨h.1, h.2 "junction" (by decide) (by decide) (by decide)⟩

/-! Claim C7. -/

/-- C7: graph assembly fails with the EmptyOverpassResponse error exactly
when the concatenation of all batches' element lists is empty — and in
that case the `Except` result carries no graph at all, so assembly aborts
before any graph is constructed. -/
theorem empty_source_error_iff (s : Settings) (batches : List Batch) (b : Bool) :
    _create_graph s batches b
        = Except.error (.EmptyOverpassResponse
            "There are no data elements in the response JSON objects")
      ↔ (batches.map Batch.elements).flatten = [] := by
  by_cases hc : (batches.map Batch.elements).flatten = []
  · simp [_create_graph, hc]
  · have hlen : ¬ ((batches.map Batch.elements).flatten.length < 1) := by
      intro h
      exact hc (List.length_eq_zero.mp (Nat.lt_one_iff.mp h))
    simp only [_create_graph]
    rw [if_neg hlen]
    constructor
    · intro h
      cases h
    · intro h
      exact absurd h hc

/-! Claim C8. -/

/-- C8: merging two batches that both define a node with the same id is
last-write-wins in batch order: assembling `[A, B]` leaves B's converted
attributes on the node and assembling `[B, A]` leaves A's — the merge is
order-dependent by design. -/
theorem batch_merge_last_write_wins (s : Settings) (b : Bool) (i : Int)
    (la1 lo1 la2 lo2 : Rat) (t1 t2 : Tags) :
    graphNode (_create_graph s
        [⟨[jsonNodeElem i la1 lo1 t1]⟩, ⟨[jsonNodeElem i la2 lo2 t2]⟩] b) (.int i)
      = some (_convert_node s (jsonNodeElem i la2 lo2 t2)) ∧
    graphNode (_create_graph s
        [⟨[jsonNodeElem i la2 lo2 t2]⟩, ⟨[jsonNodeElem i la1 lo1 t1]⟩] b) (.int i)
      = some (_convert_node s (jsonNodeElem i la1 lo1 t1)) := by
  constructor <;>
    simp [_create_graph, _parse_osm_nodes_paths, classifyStep, _add_paths, graphNode,
      jsonNodeElem, dget, dget?, dinsert, List.foldl_cons, List.foldl_nil]

/-! Handler-run lemmas for the XML/JSON equivalence. -/

theorem runFrom_nil (st : HandlerState) : runFrom st [] = st := rfl

theorem runFrom_cons (st : HandlerState) (ev : SaxEvent) (l : List SaxEvent) :
    runFrom st (ev :: l) = runFrom (stepEvent st ev) l := rfl

theorem runFrom_append (st : HandlerState) (l1 l2 : List SaxEvent) :
    runFrom st (l1 ++ l2) = runFrom (runFrom st l1) l2 := by
  simp [runFrom]

theorem stepStartOsm (st : HandlerState) (a : Attrs) :
    stepEvent st (.start "osm" a) = st := rfl

theorem stepStopOsm (st : HandlerState) : stepEvent st (.stop "osm") = st := rfl

theorem stepStartNode (st : HandlerState) (i : Int) (la lo : Rat) :
    stepEvent st (.start "node" [("id", .int i), ("lat", .rat la), ("lon", .rat lo)])
      = ⟨some (inflight "node" [] []
            [("id", .int i), ("lat", .rat la), ("lon", .rat lo)]), st.elements⟩ := rfl

theorem stepStartWay (st : HandlerState) (i : Int) :
    stepEvent st (.start "way" [("id", .int i)])
      = ⟨some (inflight "way" [] [] [("id", .int i)]), st.elements⟩ := rfl

theorem stepStopNode (e : Attrs) (es : List Attrs) :
    stepEvent ⟨some e, es⟩ (.stop "node") = ⟨some e, es ++ [e]⟩ := rfl

theorem stepStopWay (e : Attrs) (es : List Attrs) :
    stepEvent ⟨some e, es⟩ (.stop "way") = ⟨some e, es ++ [e]⟩ := rfl

theorem runTagEvents (tags : List (String × String)) :
    ∀ (ty : String) (t : Tags) (ns : List Int) (rest : Attrs) (es : List Attrs),
    runFrom ⟨some (inflight ty t ns rest), es⟩ (tagEvents tags)
      = ⟨some (inflight ty (tagDictFrom t tags) ns rest), es⟩ := by
  induction tags with
  | nil => intro ty t ns rest es; rfl
  | cons kv tl ih =>
      intro ty t ns rest es
      obtain ⟨k, v⟩ := kv
      exact ih ty (dinsert t k v) ns rest es

theorem runNdEvents (nds : List Int) :
    ∀ (ty : String) (t : Tags) (ns : List Int) (rest : Attrs) (es : List Attrs),
    runFrom ⟨some (inflight ty t ns rest), es⟩ (ndEvents nds)
      = ⟨some (inflight ty t (ns ++ nds) rest), es⟩ := by
  induction nds with
  | nil => intro ty t ns rest es; simp [ndEvents, runFrom]
  | cons r tl ih =>
      intro ty t ns rest es
      have hl : ns ++ r :: tl = (ns ++ [r]) ++ tl := by simp
      rw [hl]
      exact ih ty t (ns ++ [r]) rest es

theorem runItem (item : OsmItem) (el : Option Attrs) (es : List Attrs)
    (more : List SaxEvent) :
    runFrom ⟨el, es⟩ (itemEvents item ++ more)
      = runFrom ⟨some (xmlElement item), es ++ [xmlElement item]⟩ more := by
  cases item with
  | node n =>
      have h1 : itemEvents (OsmItem.node n) ++ more
          = SaxEvent.start "node"
              [("id", .int n.id), ("lat", .rat n.lat), ("lon", .rat n.lon)]
            :: (tagEvents n.tags ++ (SaxEvent.stop "node" :: more)) := by
        simp [itemEvents]
      rw [h1, runFrom_cons, stepStartNode, runFrom_append, runTagEvents,
        runFrom_cons, stepStopNode]
      rfl
  | way w =>
      have h1 : itemEvents (OsmItem.way w) ++ more
          = SaxEvent.start "way" [("id", .int w.id)]
            :: (ndEvents w.nds ++ (tagEvents w.tags ++ (SaxEvent.stop "way" :: more))) := by
        simp [itemEvents]
      rw [h1, runFrom_cons, stepStartWay, runFrom_append, runNdEvents,
        runFrom_append, runTagEvents, runFrom_cons, stepStopWay]
      rfl

theorem runItems (items : List OsmItem) :
    ∀ (el : Option Attrs) (es : List Attrs) (more : List SaxEvent),
    ∃ el2 : Option Attrs,
      runFrom ⟨el, es⟩ ((items.map itemEvents).flatten ++ more)
        = runFrom ⟨el2, es ++ items.map xmlElement⟩ more := by
  induction items with
  | nil => intro el es more; exact ⟨el, by simp⟩
  | cons it tl ih =>
      intro el es more
      have h1 : (((it :: tl).map itemEvents).flatten) ++ more
          = itemEvents it ++ ((tl.map itemEvents).flatten ++ more) := by simp
      obtain ⟨el2, h2⟩ := ih (some (xmlElement it)) (es ++ [xmlElement it]) more
      refine ⟨el2, ?_⟩
      rw [h1, runItem, h2]
      congr 1
      simp

theorem overpass_file_elements (items : List OsmItem) :
    (_overpass_json_from_file (xmlEvents items)).elements = items.map xmlElement := by
  have h1 : xmlEvents items
      = SaxEvent.start "osm" [("version", .str "0.6"), ("generator", .str "handwritten")]
        :: ((items.map itemEvents).flatten ++ [SaxEvent.stop "osm"]) := by
    simp [xmlEvents]
  obtain ⟨el2, h2⟩ := runItems items none [] [SaxEvent.stop "osm"]
  show (runFrom ⟨none, []⟩ (xmlEvents items)).elements = _
  rw [h1, runFrom_cons, stepStartOsm, h2, runFrom_cons, stepStopOsm, runFrom_nil]
  simp

theorem convert_node_xml_json (s : Settings) (n : NodeDesc) :
    _convert_node s (xmlElement (.node n)) = _convert_node s (jsonElement (.node n)) := rfl

theorem convert_path_xml_json (s : Settings) (w : WayDesc) :
    _convert_path s (xmlElement (.way w)) = _convert_path s (jsonElement (.way w)) := rfl

theorem classifyStep_xml_json (s : Settings) (acc : Dict Val Attrs × Dict Val Attrs)
    (item : OsmItem) :
    classifyStep s acc (xmlElement item) = classifyStep s acc (jsonElement item) := by
  cases item <;> rfl

theorem parse_xml_json_fold (s : Settings) (items : List OsmItem) :
    ∀ acc : Dict Val Attrs × Dict Val Attrs,
      (items.map xmlElement).foldl (classifyStep s) acc
        = (items.map jsonElement).foldl (classifyStep s) acc := by
  induction items with
  | nil => intro acc; rfl
  | cons it tl ih =>
      intro acc
      show (tl.map xmlElement).foldl (classifyStep s) (classifyStep s acc (xmlElement it))
          = (tl.map jsonElement).foldl (classifyStep s) (classifyStep s acc (jsonElement it))
      rw [classifyStep_xml_json]
      exact ih _

/-! Claim C9. -/

/-- C9: for every described OSM document — nodes and ways with ids,
coordinates, tags and node references — running the XML Normalizer over
the document's event stream and then the Element Classifier produces
exactly the same (nodes, ways) maps as running the Element Classifier
directly on the hand-constructed Overpass JSON batch for the same data. -/
theorem xml_json_classifier_equiv (s : Settings) (items : List OsmItem) :
    _parse_osm_nodes_paths s (_overpass_json_from_file (xmlEvents items))
      = _parse_osm_nodes_paths s (jsonBatch items) := by
  show ((_overpass_json_from_file (xmlEvents items)).elements).foldl
      (classifyStep s) ([], [])
    = ((jsonBatch items).elements).foldl (classifyStep s) ([], [])
  rw [overpass_file_elements]
  exact parse_xml_json_fold s items ([], [])

end Osmnx
